import Mathlib

/-!
Verification development for the PaperRadar conference-intelligence pipeline.

The Python modules `ccf_monitor.py`, `code_verifier.py`, `collector.py`,
`db.py`, `llm_mcp.py` and `workflow.py` are shallowly embedded below.
SQLite tables become Lean lists, network and collaborator responses become
explicit oracle parameters, and Python date/time handling is embedded by an
executable model of `datetime.fromisoformat`.
-/

/- ### Python date/time model -/

/-- Numeric value of a decimal digit character, `none` otherwise. -/
def digitVal (c : Char) : Option Nat :=
  if c.isDigit then some (c.toNat - 48) else none

/-- Read exactly two decimal digits. -/
def read2 : List Char → Option (Nat × List Char)
  | c1 :: c2 :: rest =>
    match digitVal c1, digitVal c2 with
    | some d1, some d2 => some (d1 * 10 + d2, rest)
    | _, _ => none
  | _ => none

/-- Read exactly four decimal digits. -/
def read4 : List Char → Option (Nat × List Char)
  | c1 :: c2 :: c3 :: c4 :: rest =>
    match digitVal c1, digitVal c2, digitVal c3, digitVal c4 with
    | some d1, some d2, some d3, some d4 =>
      some (((d1 * 10 + d2) * 10 + d3) * 10 + d4, rest)
    | _, _, _, _ => none
  | _ => none

/-- Consume one expected character. -/
def expectChar (c : Char) : List Char → Option (List Char)
  | x :: rest => if x = c then some rest else none
  | [] => none

/-- Gregorian leap-year test, as used by Python's `datetime`. -/
def isLeapYear (y : Nat) : Bool :=
  y % 4 = 0 && (y % 100 ≠ 0 || y % 400 = 0)

/-- Number of days in month `m` of year `y`. -/
def daysInMonth (y m : Nat) : Nat :=
  if m = 2 then (if isLeapYear y then 29 else 28)
  else if m = 4 || m = 6 || m = 9 || m = 11 then 30 else 31

/-- Day ordinal of the civil date `y-m-d` (days since 0000-03-01, standard
civil-from-days algorithm); valid for the years 1..9999 accepted by
`datetime.fromisoformat`.  Only differences and comparisons of ordinals are
used, so the choice of epoch is irrelevant. -/
def daysFromCivil (y m d : Nat) : Nat :=
  let yAdj := if m ≤ 2 then y - 1 else y
  let era := yAdj / 400
  let yoe := yAdj % 400
  let mp := (m + 9) % 12
  let doy := (153 * mp + 2) / 5 + d - 1
  let doe := yoe * 365 + yoe / 4 - yoe / 100 + doy
  era * 146097 + doe

/-- Model of a Python `datetime` value: the civil date as a day ordinal, the
time of day in seconds, and the timezone offset in seconds (`none` for a
naive datetime).  Sub-second precision is not represented (none of the
repository's date sources carry fractional seconds into the comparisons). -/
structure PyDateTime where
  days : Nat
  secs : Nat
  offset : Option Int
deriving DecidableEq

/-- Parse the `YYYY-MM-DD` date part, returning its day ordinal. -/
def parseDatePart (cs : List Char) : Option (Nat × List Char) :=
  match read4 cs with
  | none => none
  | some (y, cs1) =>
    match expectChar '-' cs1 with
    | none => none
    | some cs2 =>
      match read2 cs2 with
      | none => none
      | some (m, cs3) =>
        match expectChar '-' cs3 with
        | none => none
        | some cs4 =>
          match read2 cs4 with
          | none => none
          | some (d, cs5) =>
            if 1 ≤ y && 1 ≤ m && m ≤ 12 && 1 ≤ d && d ≤ daysInMonth y m then
              some (daysFromCivil y m d, cs5)
            else none

/-- Fractional-second digits after the dot: exactly three or six, as
`datetime.fromisoformat` requires; the value itself is discarded. -/
def parseFraction (cs : List Char) : Option (List Char) :=
  let ds := cs.takeWhile (·.isDigit)
  if ds.length = 3 || ds.length = 6 then some (cs.drop ds.length) else none

/-- Optional `:SS[.ffffff]` seconds component. -/
def parseSeconds : List Char → Option (Nat × List Char)
  | ':' :: rest =>
    (match read2 rest with
     | none => none
     | some (s, rest2) =>
       match rest2 with
       | '.' :: r2 =>
         (match parseFraction r2 with
          | none => none
          | some r3 => some (s, r3))
       | _ => some (s, rest2))
  | cs => some (0, cs)

/-- `HH:MM[:SS[.ffffff]]` time part, returning seconds within the day. -/
def parseTimePart (cs : List Char) : Option (Nat × List Char) :=
  match read2 cs with
  | none => none
  | some (h, cs1) =>
    match expectChar ':' cs1 with
    | none => none
    | some cs2 =>
      match read2 cs2 with
      | none => none
      | some (mi, cs3) =>
        match parseSeconds cs3 with
        | none => none
        | some (s, cs4) =>
          if h ≤ 23 && mi ≤ 59 && s ≤ 59 then
            some (h * 3600 + mi * 60 + s, cs4)
          else none

/-- `±HH:MM` timezone offset in seconds. -/
def parseOffsetPart : List Char → Option (Int × List Char)
  | c :: rest =>
    if c = '+' || c = '-' then
      match read2 rest with
      | none => none
      | some (oh, r1) =>
        match expectChar ':' r1 with
        | none => none
        | some r2 =>
          match read2 r2 with
          | none => none
          | some (om, r3) =>
            if oh ≤ 23 && om ≤ 59 then
              some (if c = '-' then -(Int.ofNat (oh * 3600 + om * 60))
                    else Int.ofNat (oh * 3600 + om * 60), r3)
            else none
    else none
  | [] => none

/-- Model of `datetime.fromisoformat` on the grammar the repository relies
on: `YYYY-MM-DD`, optionally followed by a `T` or space separator, a
`HH:MM[:SS[.fff[fff]]]` time, and an optional `±HH:MM` offset.  Returns
`none` exactly where Python raises `ValueError`. -/
def fromisoformat (s : String) : Option PyDateTime :=
  match parseDatePart s.data with
  | none => none
  | some (d, rest) =>
    match rest with
    | [] => some ⟨d, 0, none⟩
    | sep :: timeCs =>
      if sep = 'T' || sep = ' ' then
        match parseTimePart timeCs with
        | none => none
        | some (secs, rest2) =>
          match rest2 with
          | [] => some ⟨d, secs, none⟩
          | _ =>
            match parseOffsetPart rest2 with
            | some (off, []) => some ⟨d, secs, some off⟩
            | _ => none
      else none

/-- Python's `s.replace("Z", "+00:00")`: every occurrence of the character
`Z` is replaced by `+00:00` (the pattern is a single character, so
occurrence-by-occurrence replacement is exactly per-character rewriting). -/
def replaceZ (s : String) : String :=
  ⟨s.data.flatMap (fun c => if c = 'Z' then "+00:00".data else [c])⟩

/-- Python's `str.upper()` on the ASCII strings the pipeline handles. -/
def pyUpper (s : String) : String := ⟨s.data.map Char.toUpper⟩

/-- Python's `str.lower()` on the ASCII strings the pipeline handles. -/
def pyLower (s : String) : String := ⟨s.data.map Char.toLower⟩

/-- Python's `str.endswith(suffix)`. -/
def pyEndsWith (s suffix : String) : Bool :=
  decide (suffix.data.length ≤ s.data.length) &&
    decide (s.data.drop (s.data.length - suffix.data.length) = suffix.data)

/-- The instant a datetime denotes, in seconds (UTC for aware values, local
wall-clock for naive ones — Python only ever subtracts datetimes of equal
awareness, which the call sites below check). -/
def absInstant (t : PyDateTime) : Int :=
  (t.days : Int) * 86400 + (t.secs : Int) - t.offset.getD 0

/-- `(a - b).days` of two Python datetimes: floor division of the signed
second difference, matching `timedelta` normalization. -/
def timedeltaDays (a b : PyDateTime) : Int :=
  Int.fdiv (absInstant a - absInstant b) 86400

/- ### Storage model (`db.py`) -/

/-- A row of the `conferences` table. -/
structure ConferenceRow where
  name : String
  year : Int
  deadline : Option String
  triggered_at : Option String
deriving DecidableEq

/-- A row of the `papers` table (the columns the verified claims touch). -/
structure PaperRow where
  id : Nat
  conference : String
  year : Int
  title : String
  abstract : Option String
deriving DecidableEq

/-- A row of the `summaries` table. -/
structure SummaryRow where
  paper_id : Nat
  tldr_en : String
  tldr_zh : String
deriving DecidableEq

/-- A row of the `clusters` table. -/
structure ClusterRow where
  conference : String
  year : Int
  label : String
  paper_id : Nat
deriving DecidableEq

/-- The SQLite database as lists of rows in insertion order. -/
structure Storage where
  conferences : List ConferenceRow
  papers : List PaperRow
  summaries : List SummaryRow
  clusters : List ClusterRow
deriving DecidableEq

/-- `db.upsert_conference`: `INSERT OR IGNORE INTO conferences` — a row whose
`(name, year)` key already exists is left untouched; otherwise a fresh row
with the supplied deadline and a NULL `triggered_at` is appended. -/
def upsert_conference (db : Storage) (name : String) (year : Int)
    (deadline : Option String) : Storage :=
  if db.conferences.any (fun r => r.name == name && r.year == year) then db
  else { db with conferences := db.conferences ++ [⟨name, year, deadline, none⟩] }

/-- `db.mark_conference_triggered`: unconditional
`UPDATE conferences SET triggered_at=? WHERE name=? AND year=?`; the
timestamp written (`datetime.utcnow().isoformat()`) is the `nowIso`
parameter. -/
def mark_conference_triggered (db : Storage) (name : String) (year : Int)
    (nowIso : String) : Storage :=
  { db with conferences := db.conferences.map (fun r =>
      if r.name == name && r.year == year then
        { r with triggered_at := some nowIso } else r) }

/-- `db.save_summaries`: one `INSERT OR REPLACE INTO summaries` per entry —
any existing row for the same `paper_id` is replaced. -/
def save_summaries (db : Storage) (entries : List SummaryRow) : Storage :=
  { db with summaries := entries.foldl (fun acc e => acc.filter (fun s => s.paper_id != e.paper_id) ++ [e]) db.summaries }

/-- `db.save_clusters`: `DELETE FROM clusters WHERE conference=? AND year=?`
followed by one `INSERT` per assignment `(paper_id, label)`. -/
def save_clusters (db : Storage) (conference : String) (year : Int)
    (assignments : List (Nat × String)) : Storage :=
  { db with clusters :=
      db.clusters.filter (fun r => !(r.conference == conference && r.year == year))
      ++ assignments.map (fun a => ⟨conference, year, a.2, a.1⟩) }

/-- Whether the `summaries` table holds a row for `pid` (the
`LEFT JOIN summaries ... s.id IS NULL` test). -/
def hasSummary (db : Storage) (pid : Nat) : Bool :=
  db.summaries.any (fun s => s.paper_id == pid)

/-- The rows satisfying the WHERE clause of `fetch_papers_without_summary`:
same conference and year, no summary row, and `abstract IS NOT NULL`. -/
def papersWithoutSummary (db : Storage) (conference : String) (year : Int) :
    List PaperRow :=
  db.papers.filter (fun p =>
    p.conference == conference && p.year == year &&
    !(hasSummary db p.id) && p.abstract.isSome)

/-- `db.fetch_papers_without_summary`: the WHERE-clause rows in insertion
order, truncated by `LIMIT`, projected to `(id, title, abstract)`. -/
def fetch_papers_without_summary (db : Storage) (conference : String)
    (year : Int) (limit : Nat) : List (Nat × String × String) :=
  ((papersWithoutSummary db conference year).take limit).map
    (fun p => (p.id, p.title, p.abstract.getD ""))

/- ### Trigger engine (`ccf_monitor.py`) -/

/-- A configured conference (`ConferenceConfig` fields the engine reads). -/
structure ConfCfg where
  name : String
  year : Int
deriving DecidableEq

/-- `ccf_monitor.select_triggered_conferences`.  `deadlines` is the
`{acronym → deadline}` dictionary, `nowDate` is `datetime.utcnow().date()`
as a day ordinal and `nowIso` the timestamp string stamped on activation.
For each configured conference in order: upsert it; skip it when the feed
has no (or an empty) deadline for its uppercased name or the deadline string
fails to parse (`Z` first rewritten to `+00:00`); otherwise, when
`now.date() >= deadline.date() + lag_days`, append it to the triggered list
and stamp `triggered_at`. -/
def select_triggered_conferences (deadlines : String → Option String)
    (lag_days : Nat) (nowDate : Nat) (nowIso : String) :
    List ConfCfg → Storage → Storage × List ConfCfg
  | [], db => (db, [])
  | conf :: rest, db =>
    let deadline_str := deadlines (pyUpper conf.name)
    let db1 := upsert_conference db conf.name conf.year deadline_str
    match deadline_str with
    | none => select_triggered_conferences deadlines lag_days nowDate nowIso rest db1
    | some ds =>
      if ds = "" then
        select_triggered_conferences deadlines lag_days nowDate nowIso rest db1
      else
        match fromisoformat (replaceZ ds) with
        | none => select_triggered_conferences deadlines lag_days nowDate nowIso rest db1
        | some dt =>
          if dt.days + lag_days ≤ nowDate then
            let db2 := mark_conference_triggered db1 conf.name conf.year nowIso
            let r := select_triggered_conferences deadlines lag_days nowDate nowIso rest db2
            (r.1, conf :: r.2)
          else
            select_triggered_conferences deadlines lag_days nowDate nowIso rest db1

/- ### Collector (`collector.py`) -/

/-- A raw adapter record (the dictionary fields `collect_papers` touches).
`none` models an absent dictionary key. -/
structure PaperRec where
  title : String
  conference : String
  year : Int
  source : String
  affiliations : Option String
  supplemental_url : Option String
  supplementary_material : Option String
deriving DecidableEq

/-- `collector._normalize`: default `affiliations` to the empty string,
default `supplemental_url` to the record's `supplementary_material`, and
overwrite `conference`, `year` and `source`.  The title is untouched. -/
def normalizeRecord (p : PaperRec) (conference : String) (year : Int)
    (source : String) : PaperRec :=
  { p with
    affiliations := match p.affiliations with | none => some "" | s => s
    supplemental_url := match p.supplemental_url with | none => p.supplementary_material | s => s
    conference := conference, year := year, source := source }

/-- The source names `collect_papers` dispatches on; any other entry of the
priority list contributes nothing. -/
def knownSource (s : String) : Bool :=
  s == "openreview" || s == "official" || s == "arxiv"

/-- Inner loop of `collect_papers`: thread the `seen_titles` set (as a list
of keys) and the accumulated output through one batch of normalized
records.  A record is appended iff its lowercased title is non-empty and
unseen. -/
def dedupInto : List PaperRec → List String → List PaperRec → List String × List PaperRec
  | [], seen, acc => (seen, acc)
  | p :: rest, seen, acc =>
    let key := pyLower p.title
    if key != "" && !(seen.contains key) then dedupInto rest (key :: seen) (acc ++ [p])
    else dedupInto rest seen acc

/-- Outer loop of `collect_papers` over the priority list.  `env src` is the
list of records the adapter for `src` returned (an erroring adapter returns
`[]` in the source, so it is just an `env` value here). -/
def collectSources (env : String → List PaperRec) (conference : String) (year : Int) :
    List String → List String → List PaperRec → List String × List PaperRec
  | [], seen, acc => (seen, acc)
  | src :: rest, seen, acc =>
    let papers := if knownSource src then env src else []
    let normalized := papers.map (fun p => normalizeRecord p conference year src)
    let r := dedupInto normalized seen acc
    collectSources env conference year rest r.1 r.2

/-- `collector.collect_papers`: run the adapters in priority order and
deduplicate globally by lowercased title. -/
def collect_papers (priority : List String) (env : String → List PaperRec)
    (conference : String) (year : Int) : List PaperRec :=
  (collectSources env conference year priority [] []).2

/-- The full normalized record stream in priority order, before
deduplication (specification-level view of the same adapter outputs). -/
def collectStream (priority : List String) (env : String → List PaperRec)
    (conference : String) (year : Int) : List PaperRec :=
  priority.flatMap (fun src =>
    if knownSource src then (env src).map (fun p => normalizeRecord p conference year src)
    else [])

/-- One-pass first-occurrence deduplication by lowercased non-empty title,
relative to an initial seen set. -/
def dedupByTitle : List PaperRec → List String → List PaperRec
  | [], _ => []
  | p :: rest, seen =>
    let key := pyLower p.title
    if key != "" && !(seen.contains key) then p :: dedupByTitle rest (key :: seen)
    else dedupByTitle rest seen

/-- The seen set after a deduplication pass. -/
def dedupSeen : List PaperRec → List String → List String
  | [], seen => seen
  | p :: rest, seen =>
    let key := pyLower p.title
    if key != "" && !(seen.contains key) then dedupSeen rest (key :: seen)
    else dedupSeen rest seen

/- ### Collaborator transport (`llm_mcp.py`) -/

/-- `LLMClient._chat_json`: `for _ in range(2)` around a chat call plus
`json.loads`.  `attempt1`/`attempt2` are the outcomes of the two possible
attempts (`none` = the chat call raised or its body failed to parse as
JSON).  Returns the parsed value (or `none` after two failures) together
with the number of attempts actually made. -/
def chat_json {α : Type} (attempt1 attempt2 : Option α) : Option α × Nat :=
  match attempt1 with
  | some v => (some v, 1)
  | none => (attempt2, 2)

/-- `LLMClient.batch_summarize` under claim C4's well-formedness assumption:
the collaborator answers a batch with a same-length JSON array covering
exactly the submitted ids, so each `(id, title, abstract)` tuple yields one
`(id, tldr_en, tldr_zh)` row.  `en`/`zh` model the generated texts. -/
def batch_summarize_ideal (en zh : Nat → String)
    (batch : List (Nat × String × String)) : List SummaryRow :=
  batch.map (fun b => ⟨b.1, en b.1, zh b.1⟩)

/- ### Code verification engine (`code_verifier.py`) -/

/-- Repository metadata fields `verify_repo` reads (`meta.get("size", 0)`
and `meta.get("pushed_at")`). -/
structure RepoMeta where
  size : Int
  pushed_at : Option String
deriving DecidableEq

/-- The result dictionary of `verify_repo`. -/
structure VerifyResult where
  status : String
  has_readme : Bool
  has_code : Bool
  last_commit : Option String
deriving DecidableEq

/-- The recognized source-file extensions of `_check_code_files`. -/
def allowedExt : List String :=
  [".py", ".ipynb", ".cc", ".cpp", ".cu", ".js", ".java"]

/-- `_check_code_files`: `none` models a non-200 contents response (returns
false); otherwise true iff some root file name, lowercased, ends in a
recognized extension. -/
def check_code_files (listing : Option (List String)) : Bool :=
  match listing with
  | none => false
  | some names => names.any (fun n => allowedExt.any (fun ext => pyEndsWith (pyLower n) ext))

/-- Python's `a or b` on optional strings: the empty string is falsy. -/
def pyOrStr (a b : Option String) : Option String :=
  match a with
  | some s => if s = "" then b else some s
  | none => b

/-- The signed whole-day gap `(repo - paper).days` between two date strings,
after the `Z → +00:00` rewrite both call sites apply.  `none` models every
way the Python `try` block can raise: either string failing to parse, or a
naive/aware mismatch (`TypeError` on subtraction). -/
def commitPaperDayGap (paper_date commit : String) : Option Int :=
  match fromisoformat (replaceZ paper_date),
        fromisoformat (replaceZ commit) with
  | some pdt, some rdt =>
    if pdt.offset.isSome == rdt.offset.isSome then some (timedeltaDays rdt pdt)
    else none
  | _, _ => none

/-- The recency-downgrade test of `verify_repo`: both strings truthy, the
guarded computation succeeds, and the absolute day gap exceeds 180. -/
def recencyExceeded (paper_date last_commit : Option String) : Bool :=
  match paper_date, last_commit with
  | some p, some l =>
    if p = "" || l = "" then false
    else
      match commitPaperDayGap p l with
      | some g => if 180 < g.natAbs then true else false
      | none => false
  | _, _ => false

/-- `code_verifier.verify_repo` as a function of its network and
collaborator observations: `meta` is the repository metadata fetch
(`none` = unreachable), `commit_api` the latest-commit date fetch,
`listing` the root contents fetch, `readme_text` the fetched readme (the
empty string on any failure), `llm_available` whether a collaborator is
configured, and `llm_calls` the placeholder flags extracted from the
collaborator's tool-plan calls. -/
def verify_repo (meta : Option RepoMeta) (commit_api : Option String)
    (listing : Option (List String)) (paper_date : Option String)
    (readme_text : String) (llm_available : Bool) (llm_calls : List Bool) :
    VerifyResult :=
  match meta with
  | none => ⟨"None", false, false, none⟩
  | some m =>
    let has_readme : Bool := decide (0 < m.size)
    let last_commit := pyOrStr commit_api m.pushed_at
    let has_code := check_code_files listing
    let status0 := if has_code && has_readme then "Verified" else "Placeholder"
    let status1 := if recencyExceeded paper_date last_commit then "Placeholder" else status0
    let status2 := if llm_available && readme_text != "" && llm_calls.any id then "Placeholder" else status1
    ⟨status2, has_readme, has_code, last_commit⟩

/- ### Batch-summarization loop (`workflow.py`, step 2 of `process_conference`) -/

theorem summFor_foldl (entries acc : List SummaryRow) (pid : Nat) :
    ((entries.foldl (fun acc e => acc.filter (fun s => s.paper_id != e.paper_id) ++ [e]) acc).any
      (fun s => s.paper_id == pid) = true)
    ↔ (acc.any (fun s => s.paper_id == pid) = true ∨ ∃ e ∈ entries, e.paper_id = pid) := by
  induction entries generalizing acc with
  | nil => simp
  | cons e es ih =>
    rw [List.foldl_cons, ih]
    have hstep : ((acc.filter (fun s => s.paper_id != e.paper_id) ++ [e]).any
        (fun s => s.paper_id == pid) = true)
        ↔ (acc.any (fun s => s.paper_id == pid) = true ∨ e.paper_id = pid) := by
      simp only [List.any_append, List.any_eq_true, List.mem_filter, List.any_cons,
        List.any_nil, Bool.or_eq_true, Bool.or_false, bne_iff_ne, beq_iff_eq]
      constructor
      · rintro (⟨s, ⟨hs, hne⟩, hpid⟩ | hpid)
        · exact Or.inl ⟨s, hs, hpid⟩
        · exact Or.inr hpid
      · rintro (⟨s, hs, hpid⟩ | hpid)
        · by_cases hse : s.paper_id = e.paper_id
          · exact Or.inr (hse ▸ hpid)
          · exact Or.inl ⟨s, ⟨hs, hse⟩, hpid⟩
        · exact Or.inr hpid
    rw [hstep]
    simp only [List.mem_cons]
    constructor
    · rintro ((h | h) | ⟨x, hx, hpid⟩)
      · exact Or.inl h
      · exact Or.inr ⟨e, Or.inl rfl, h⟩
      · exact Or.inr ⟨x, Or.inr hx, hpid⟩
    · rintro (h | ⟨x, (rfl | hx), hpid⟩)
      · exact Or.inl (Or.inl h)
      · exact Or.inl (Or.inr hpid)
      · exact Or.inr ⟨x, hx, hpid⟩

theorem hasSummary_save (db : Storage) (entries : List SummaryRow) (pid : Nat) :
    hasSummary (save_summaries db entries) pid
      = (hasSummary db pid || entries.any (fun e => e.paper_id == pid)) := by
  have h := summFor_foldl entries db.summaries pid
  rw [Bool.eq_iff_iff]
  unfold hasSummary save_summaries
  simp only [Bool.or_eq_true]
  rw [h]
  constructor
  · rintro (h1 | ⟨e, he, hpid⟩)
    · exact Or.inl h1
    · exact Or.inr (List.any_eq_true.mpr ⟨e, he, by simpa using hpid⟩)
  · rintro (h1 | h2)
    · exact Or.inl h1
    · obtain ⟨e, he, hpid⟩ := List.any_eq_true.mp h2
      exact Or.inr ⟨e, he, by simpa using hpid⟩

theorem papersWithoutSummary_save (db : Storage) (entries : List SummaryRow)
    (conf : String) (year : Int) :
    papersWithoutSummary (save_summaries db entries) conf year
      = db.papers.filter (fun p =>
          (p.conference == conf && p.year == year && !(hasSummary db p.id) && p.abstract.isSome)
          && !(entries.any (fun e => e.paper_id == p.id))) := by
  unfold papersWithoutSummary
  have hpapers : (save_summaries db entries).papers = db.papers := rfl
  rw [hpapers]
  apply List.filter_congr
  intro p _
  rw [hasSummary_save]
  cases p.conference == conf <;> cases p.year == year <;> cases hasSummary db p.id
    <;> cases entries.any (fun e => e.paper_id == p.id) <;> cases p.abstract.isSome <;> rfl

theorem length_filter_le_of_imp {α : Type} (p q : α → Bool) (l : List α)
    (h : ∀ x, q x = true → p x = true) :
    (l.filter q).length ≤ (l.filter p).length := by
  induction l with
  | nil => simp
  | cons a t ih =>
    rw [List.filter_cons, List.filter_cons]
    cases hq : q a
    · cases hp : p a
      · simpa using ih
      · simpa using Nat.le_succ_of_le ih
    · rw [h a hq]
      simpa using ih

theorem length_filter_lt_of_witness {α : Type} (p q : α → Bool) (l : List α)
    (h : ∀ x, q x = true → p x = true) (x0 : α) (hmem : x0 ∈ l)
    (hp : p x0 = true) (hq : q x0 = false) :
    (l.filter q).length < (l.filter p).length := by
  induction l with
  | nil => cases hmem
  | cons a t ih =>
    rw [List.filter_cons, List.filter_cons]
    rcases List.mem_cons.mp hmem with rfl | hmem'
    · rw [hp, hq]
      simpa using Nat.lt_succ_of_le (length_filter_le_of_imp p q t h)
    · cases hq2 : q a
      · cases hp2 : p a
        · simpa using ih hmem'
        · simpa using Nat.lt_succ_of_lt (ih hmem')
      · rw [h a hq2]
        simpa using Nat.succ_lt_succ (ih hmem')

theorem summarize_measure (en zh : Nat → String) (conf : String) (year : Int)
    (N : Nat) (db : Storage)
    (h : fetch_papers_without_summary db conf year N ≠ []) :
    (papersWithoutSummary
      (save_summaries db (batch_summarize_ideal en zh (fetch_papers_without_summary db conf year N)))
      conf year).length
    < (papersWithoutSummary db conf year).length := by
  obtain ⟨b, hb⟩ := List.exists_mem_of_ne_nil _ h
  unfold fetch_papers_without_summary at hb
  obtain ⟨x0, hx0take, hx0b⟩ := List.mem_map.mp hb
  have hx0E : x0 ∈ papersWithoutSummary db conf year := List.mem_of_mem_take hx0take
  have hx0p : x0 ∈ db.papers := (List.mem_filter.mp hx0E).1
  have hx0pred := (List.mem_filter.mp hx0E).2
  have hany : (batch_summarize_ideal en zh (fetch_papers_without_summary db conf year N)).any
      (fun e => e.paper_id == x0.id) = true := by
    apply List.any_eq_true.mpr
    refine ⟨⟨b.1, en b.1, zh b.1⟩, List.mem_map_of_mem _ hb, ?_⟩
    rw [← hx0b]
    simp
  rw [papersWithoutSummary_save]
  unfold papersWithoutSummary
  apply length_filter_lt_of_witness _ _ _ ?_ x0 hx0p hx0pred ?_
  · intro x hx
    cases ha : (x.conference == conf && x.year == year && !hasSummary db x.id && x.abstract.isSome)
    · rw [ha] at hx
      exact absurd hx (by simp)
    · rfl
  · rw [hany]
    cases hb2 : (x0.conference == conf && x0.year == year && !(hasSummary db x0.id)
        && x0.abstract.isSome) <;> rfl

/-- Step 2 of `Pipeline.process_conference`: fetch up to `N` papers lacking
a summary, submit the batch to the collaborator (idealized by
`batch_summarize_ideal`, claim C4's well-formedness assumption), persist,
and repeat until a fetch comes back empty.  The returned `Nat` counts
collaborator summarization calls (loop iterations). -/
def summarizeLoop (en zh : Nat → String) (conf : String) (year : Int) (N : Nat)
    (db : Storage) : Storage × Nat :=
  if h : fetch_papers_without_summary db conf year N = [] then (db, 0)
  else
    let r := summarizeLoop en zh conf year N
      (save_summaries db (batch_summarize_ideal en zh (fetch_papers_without_summary db conf year N)))
    (r.1, r.2 + 1)
termination_by (papersWithoutSummary db conf year).length
decreasing_by exact summarize_measure en zh conf year N db h

theorem filter_split_pointwise {α : Type} (r p q : α → Bool) (l : List α)
    (h : ∀ a, r a = (p a && q a)) : l.filter r = (l.filter p).filter q := by
  induction l with
  | nil => rfl
  | cons a t ih =>
    cases hp : p a <;> cases hq : q a <;> simp [List.filter_cons, h a, hp, hq, ih]

theorem any_over_map {α β : Type} (f : α → β) (p : β → Bool) (l : List α) :
    (l.map f).any p = l.any (fun a => p (f a)) := by
  induction l with
  | nil => rfl
  | cons a t ih => simp [List.map_cons, List.any_cons, ih]

theorem filter_id_not_in_take (E : List PaperRow) :
    (E.map (fun p => p.id)).Nodup → ∀ n : Nat,
    E.filter (fun p => !((E.take n).any (fun q => q.id == p.id))) = E.drop n := by
  induction E with
  | nil => intro _ n; simp
  | cons a t ih =>
    intro hnd n
    simp only [List.map_cons, List.nodup_cons] at hnd
    obtain ⟨ha, hnd'⟩ := hnd
    cases n with
    | zero => simp
    | succ m =>
      rw [List.take_succ_cons, List.drop_succ_cons, List.filter_cons]
      have hhead : (!((a :: List.take m t).any (fun q => q.id == a.id))) = false := by simp
      rw [hhead]
      simp only [if_false, Bool.false_eq_true, if_neg]
      have hcongr : t.filter (fun p => !((a :: List.take m t).any (fun q => q.id == p.id)))
          = t.filter (fun p => !((List.take m t).any (fun q => q.id == p.id))) := by
        apply List.filter_congr
        intro x hx
        have hne : ¬(a.id = x.id) := by
          intro he
          exact ha (he ▸ List.mem_map_of_mem _ hx)
        simp [List.any_cons, hne]
      rw [hcongr, ih hnd' m]

theorem papersWithoutSummary_after (en zh : Nat → String) (db : Storage)
    (conf : String) (year : Int) (N : Nat)
    (hnd : (db.papers.map (fun p => p.id)).Nodup) :
    papersWithoutSummary
      (save_summaries db (batch_summarize_ideal en zh (fetch_papers_without_summary db conf year N)))
      conf year
      = (papersWithoutSummary db conf year).drop N := by
  rw [papersWithoutSummary_save]
  have heq := filter_split_pointwise
    (fun p => (p.conference == conf && p.year == year && !(hasSummary db p.id) && p.abstract.isSome)
      && !((batch_summarize_ideal en zh (fetch_papers_without_summary db conf year N)).any
        (fun e => e.paper_id == p.id)))
    (fun p => p.conference == conf && p.year == year && !(hasSummary db p.id) && p.abstract.isSome)
    (fun p => !((batch_summarize_ideal en zh (fetch_papers_without_summary db conf year N)).any
      (fun e => e.paper_id == p.id)))
    db.papers (fun a => rfl)
  rw [heq]
  have hcongr : (papersWithoutSummary db conf year).filter
      (fun p => !((batch_summarize_ideal en zh (fetch_papers_without_summary db conf year N)).any
        (fun e => e.paper_id == p.id)))
      = (papersWithoutSummary db conf year).filter
        (fun p => !(((papersWithoutSummary db conf year).take N).any (fun q => q.id == p.id))) := by
    apply List.filter_congr
    intro x _
    unfold batch_summarize_ideal fetch_papers_without_summary
    rw [any_over_map, any_over_map]
  have hsplit : db.papers.filter
      (fun p => p.conference == conf && p.year == year && !(hasSummary db p.id) && p.abstract.isSome)
      = papersWithoutSummary db conf year := rfl
  rw [hsplit, hcongr]
  have hndE : ((papersWithoutSummary db conf year).map (fun p => p.id)).Nodup := by
    apply List.Nodup.sublist _ hnd
    exact List.Sublist.map _ (List.filter_sublist _)
  exact filter_id_not_in_take _ hndE N

theorem ceil_div_rec (N len : Nat) (hN : 0 < N) (hlen : 0 < len) :
    (len + N - 1) / N = (len - N + N - 1) / N + 1 := by
  rcases le_or_lt N len with h | h
  · have h1 : len + N - 1 = (len - N + N - 1) + N := by omega
    rw [h1, Nat.add_div_right _ hN]
  · have h1 : len - N = 0 := by omega
    have h2 : (len - N + N - 1) / N = 0 := by
      rw [h1]
      exact Nat.div_eq_of_lt (by omega)
    have h3 : len + N - 1 = (len - 1) + N := by omega
    rw [h2, h3, Nat.add_div_right _ hN, Nat.div_eq_of_lt (by omega)]

theorem summarizeLoop_spec (en zh : Nat → String) (conf : String) (year : Int)
    (N : Nat) (hN : 0 < N) :
    ∀ L (db : Storage), (papersWithoutSummary db conf year).length = L →
      (db.papers.map (fun p => p.id)).Nodup →
      (summarizeLoop en zh conf year N db).2 = (L + N - 1) / N
      ∧ papersWithoutSummary (summarizeLoop en zh conf year N db).1 conf year = []
      ∧ (summarizeLoop en zh conf year N db).1.papers = db.papers := by
  intro L
  induction L using Nat.strong_induction_on with
  | _ L IH =>
    intro db hL hnd
    rw [summarizeLoop]
    by_cases h : fetch_papers_without_summary db conf year N = []
    · rw [dif_pos h]
      have hE : papersWithoutSummary db conf year = [] := by
        cases hEq : papersWithoutSummary db conf year with
        | nil => rfl
        | cons p rest =>
          exfalso
          obtain ⟨m, rfl⟩ : ∃ m, N = m + 1 := ⟨N - 1, by omega⟩
          unfold fetch_papers_without_summary at h
          rw [hEq, List.take_succ_cons] at h
          simp at h
      rw [hE] at hL
      simp only [List.length_nil] at hL
      refine ⟨?_, hE, rfl⟩
      rw [← hL]
      exact (Nat.div_eq_of_lt (by omega)).symm
    · rw [dif_neg h]
      have hEne : papersWithoutSummary db conf year ≠ [] := by
        intro he
        apply h
        unfold fetch_papers_without_summary
        rw [he]
        simp
      have hpos : 0 < L := by
        rw [← hL]
        exact List.length_pos.mpr hEne
      have hdrop := papersWithoutSummary_after en zh db conf year N hnd
      have hlen2 : (papersWithoutSummary
          (save_summaries db (batch_summarize_ideal en zh (fetch_papers_without_summary db conf year N)))
          conf year).length = L - N := by
        rw [hdrop, List.length_drop, hL]
      have hnd2 : ((save_summaries db (batch_summarize_ideal en zh (fetch_papers_without_summary db conf year N))).papers.map
          (fun p => p.id)).Nodup := hnd
      obtain ⟨ih1, ih2, ih3⟩ := IH (L - N) (by omega)
        (save_summaries db (batch_summarize_ideal en zh (fetch_papers_without_summary db conf year N)))
        hlen2 hnd2
      refine ⟨?_, ih2, ih3⟩
      show (summarizeLoop en zh conf year N
        (save_summaries db (batch_summarize_ideal en zh (fetch_papers_without_summary db conf year N)))).2 + 1
        = (L + N - 1) / N
      rw [ih1]
      exact (ceil_div_rec N L hN hpos).symm

theorem select_triggered_sound (deadlines : String → Option String)
    (lag_days nowDate : Nat) (nowIso : String) (conf : ConfCfg) :
    ∀ (confs : List ConfCfg) (db : Storage),
      conf ∈ (select_triggered_conferences deadlines lag_days nowDate nowIso confs db).2 →
      ∃ ds dt, deadlines (pyUpper conf.name) = some ds
        ∧ fromisoformat (replaceZ ds) = some dt
        ∧ dt.days + lag_days ≤ nowDate := by
  intro confs
  induction confs with
  | nil =>
    intro db hmem
    simp [select_triggered_conferences] at hmem
  | cons c rest ih =>
    intro db hmem
    simp only [select_triggered_conferences] at hmem
    split at hmem
    · exact ih _ hmem
    · rename_i ds heq
      split at hmem
      · exact ih _ hmem
      · split at hmem
        · exact ih _ hmem
        · rename_i dt hp
          split at hmem
          · rcases List.mem_cons.mp hmem with rfl | hmem'
            · exact ⟨ds, dt, heq, hp, by assumption⟩
            · exact ih _ hmem'
          · exact ih _ hmem

theorem select_triggered_complete (deadlines : String → Option String)
    (lag_days nowDate : Nat) (nowIso : String) (conf : ConfCfg) (ds : String)
    (dt : PyDateTime)
    (hds : deadlines (pyUpper conf.name) = some ds)
    (hp : fromisoformat (replaceZ ds) = some dt)
    (hle : dt.days + lag_days ≤ nowDate) :
    ∀ (confs : List ConfCfg) (db : Storage), conf ∈ confs →
      conf ∈ (select_triggered_conferences deadlines lag_days nowDate nowIso confs db).2 := by
  have hdsne : ¬(ds = "") := by
    intro he
    rw [he] at hp
    have hempty : fromisoformat (replaceZ "") = none := by decide
    rw [hempty] at hp
    cases hp
  intro confs
  induction confs with
  | nil =>
    intro db hmem
    cases hmem
  | cons c rest ih =>
    intro db hmem
    rcases List.mem_cons.mp hmem with rfl | hmem'
    · simp only [select_triggered_conferences, hds, if_neg hdsne, hp, if_pos hle]
      exact List.mem_cons_self _ _
    · simp only [select_triggered_conferences]
      split
      · exact ih _ hmem'
      · split
        · exact ih _ hmem'
        · split
          · exact ih _ hmem'
          · split
            · exact List.mem_cons_of_mem _ (ih _ hmem')
            · exact ih _ hmem'

theorem dedupInto_spec : ∀ (l : List PaperRec) (seen : List String) (acc : List PaperRec),
    dedupInto l seen acc = (dedupSeen l seen, acc ++ dedupByTitle l seen) := by
  intro l
  induction l with
  | nil => intro seen acc; simp [dedupInto, dedupSeen, dedupByTitle]
  | cons p rest ih =>
    intro seen acc
    simp only [dedupInto, dedupSeen, dedupByTitle]
    by_cases h : (pyLower p.title != "" && !(seen.contains (pyLower p.title))) = true
    · rw [if_pos h, if_pos h, if_pos h, ih]
      simp
    · rw [if_neg h, if_neg h, if_neg h, ih]

theorem dedupSeen_append : ∀ (l1 l2 : List PaperRec) (seen : List String),
    dedupSeen (l1 ++ l2) seen = dedupSeen l2 (dedupSeen l1 seen) := by
  intro l1
  induction l1 with
  | nil => intro l2 seen; simp [dedupSeen]
  | cons p rest ih =>
    intro l2 seen
    simp only [List.cons_append, List.append_eq, dedupSeen]
    by_cases h : (pyLower p.title != "" && !(seen.contains (pyLower p.title))) = true
    · rw [if_pos h, if_pos h, ih]
    · rw [if_neg h, if_neg h, ih]

theorem dedup_append : ∀ (l1 l2 : List PaperRec) (seen : List String),
    dedupByTitle (l1 ++ l2) seen = dedupByTitle l1 seen ++ dedupByTitle l2 (dedupSeen l1 seen) := by
  intro l1
  induction l1 with
  | nil => intro l2 seen; simp [dedupByTitle, dedupSeen]
  | cons p rest ih =>
    intro l2 seen
    simp only [List.cons_append, List.append_eq, dedupByTitle, dedupSeen]
    by_cases h : (pyLower p.title != "" && !(seen.contains (pyLower p.title))) = true
    · rw [if_pos h, if_pos h, if_pos h, ih]
      simp
    · rw [if_neg h, if_neg h, if_neg h, ih]

theorem collectSources_spec (env : String → List PaperRec) (conference : String) (year : Int) :
    ∀ (priority : List String) (seen : List String) (acc : List PaperRec),
      collectSources env conference year priority seen acc
        = (dedupSeen (collectStream priority env conference year) seen,
           acc ++ dedupByTitle (collectStream priority env conference year) seen) := by
  intro priority
  induction priority with
  | nil => intro seen acc; simp [collectSources, collectStream, dedupSeen, dedupByTitle]
  | cons src rest ih =>
    intro seen acc
    have hstream : collectStream (src :: rest) env conference year
        = (if knownSource src = true
            then (env src).map (fun p => normalizeRecord p conference year src) else [])
          ++ collectStream rest env conference year := by
      simp [collectStream]
    cases hks : knownSource src with
    | false =>
      rw [hstream, hks]
      simp only [collectSources, hks, Bool.false_eq_true, if_false, List.map_nil,
        List.nil_append]
      rw [show dedupInto [] seen acc = (seen, acc) from rfl]
      exact ih seen acc
    | true =>
      rw [hstream, hks]
      simp only [collectSources, hks, if_true]
      rw [dedupInto_spec, ih, dedupSeen_append, dedup_append]
      simp [List.append_assoc]

theorem bool_and_left {a b : Bool} (h : (a && b) = true) : a = true := by
  rw [Bool.and_eq_true] at h
  exact h.1

theorem bool_and_right {a b : Bool} (h : (a && b) = true) : b = true := by
  rw [Bool.and_eq_true] at h
  exact h.2

theorem contains_cons_false (k key : String) (seen : List String)
    (h1 : ¬(k = key)) (h2 : seen.contains k = false) :
    (key :: seen).contains k = false := by
  rw [List.contains_cons, h2, Bool.or_false, beq_eq_false_iff_ne]
  exact h1

theorem dedup_mem_seen_false (r : PaperRec) : ∀ (l : List PaperRec) (seen : List String),
    r ∈ dedupByTitle l seen → seen.contains (pyLower r.title) = false := by
  intro l
  induction l with
  | nil => intro seen h; cases h
  | cons p rest ih =>
    intro seen h
    simp only [dedupByTitle] at h
    by_cases hc : (pyLower p.title != "" && !(seen.contains (pyLower p.title))) = true
    · rw [if_pos hc] at h
      rcases List.mem_cons.mp h with rfl | h'
      · have h2 := bool_and_right hc
        rwa [Bool.not_eq_true'] at h2
      · have h2 := ih _ h'
        rw [List.contains_cons] at h2
        rcases Bool.or_eq_false_iff.mp h2 with ⟨_, hb⟩
        exact hb
    · rw [if_neg hc] at h
      exact ih _ h

theorem dedup_mem_key_ne (r : PaperRec) : ∀ (l : List PaperRec) (seen : List String),
    r ∈ dedupByTitle l seen → ¬(pyLower r.title = "") := by
  intro l
  induction l with
  | nil => intro seen h; cases h
  | cons p rest ih =>
    intro seen h
    simp only [dedupByTitle] at h
    by_cases hc : (pyLower p.title != "" && !(seen.contains (pyLower p.title))) = true
    · rw [if_pos hc] at h
      rcases List.mem_cons.mp h with rfl | h'
      · exact bne_iff_ne.mp (bool_and_left hc)
      · exact ih _ h'
    · rw [if_neg hc] at h
      exact ih _ h

theorem dedup_count_zero (k : String) : ∀ (l : List PaperRec) (seen : List String),
    seen.contains k = true →
    (dedupByTitle l seen).countP (fun p => pyLower p.title == k) = 0 := by
  intro l
  induction l with
  | nil => intro seen _; rfl
  | cons p rest ih =>
    intro seen hs
    simp only [dedupByTitle]
    by_cases hc : (pyLower p.title != "" && !(seen.contains (pyLower p.title))) = true
    · rw [if_pos hc, List.countP_cons]
      have hkey : (pyLower p.title == k) = false := by
        rw [beq_eq_false_iff_ne]
        intro he
        have h2 := bool_and_right hc
        rw [Bool.not_eq_true', he, hs] at h2
        cases h2
      have hs2 : (pyLower p.title :: seen).contains k = true := by
        rw [List.contains_cons, hs]
        simp
      rw [ih _ hs2]
      simp [hkey]
    · rw [if_neg hc]
      exact ih _ hs

theorem dedup_count_one (k : String) (hk : ¬(k = "")) : ∀ (l : List PaperRec) (seen : List String),
    seen.contains k = false →
    (dedupByTitle l seen).countP (fun p => pyLower p.title == k)
      = if l.any (fun p => pyLower p.title == k) then 1 else 0 := by
  intro l
  induction l with
  | nil => intro seen _; rfl
  | cons p rest ih =>
    intro seen hs
    simp only [dedupByTitle, List.any_cons]
    by_cases hkey : (pyLower p.title == k) = true
    · have hkeq : pyLower p.title = k := beq_iff_eq.mp hkey
      have hc : (pyLower p.title != "" && !(seen.contains (pyLower p.title))) = true := by
        rw [hkeq, hs]
        simp [bne_iff_ne, hk]
      rw [if_pos hc, List.countP_cons]
      have hs2 : (pyLower p.title :: seen).contains k = true := by
        rw [List.contains_cons, hkeq]
        simp
      rw [dedup_count_zero k _ _ hs2]
      simp [hkey]
    · have hne : (pyLower p.title == k) = false := by
        rw [beq_eq_false_iff_ne]
        intro he
        exact hkey (beq_iff_eq.mpr he)
      have hpk : ¬(k = pyLower p.title) := by
        intro he
        subst he
        simp at hne
      by_cases hc : (pyLower p.title != "" && !(seen.contains (pyLower p.title))) = true
      · rw [if_pos hc, List.countP_cons]
        rw [ih _ (contains_cons_false k _ seen hpk hs)]
        simp [hne]
      · rw [if_neg hc, ih _ hs]
        simp [hne]

/-- The first record of a stream whose lowercased title equals `k` (the
record the claim says survives deduplication). -/
def firstWithKey (k : String) : List PaperRec → Option PaperRec
  | [] => none
  | p :: rest => if pyLower p.title == k then some p else firstWithKey k rest

theorem dedup_find_first (k : String) (hk : ¬(k = "")) : ∀ (l : List PaperRec) (seen : List String),
    seen.contains k = false → ∀ r, r ∈ dedupByTitle l seen → pyLower r.title = k →
    firstWithKey k l = some r := by
  intro l
  induction l with
  | nil => intro seen _ r hr; cases hr
  | cons p rest ih =>
    intro seen hs r hr hrk
    simp only [dedupByTitle] at hr
    simp only [firstWithKey]
    by_cases hkey : (pyLower p.title == k) = true
    · rw [if_pos hkey]
      have hkeq := beq_iff_eq.mp hkey
      have hc : (pyLower p.title != "" && !(seen.contains (pyLower p.title))) = true := by
        rw [hkeq, hs]
        simp [bne_iff_ne, hk]
      rw [if_pos hc] at hr
      rcases List.mem_cons.mp hr with rfl | hr2
      · rfl
      · exfalso
        have h2 := dedup_mem_seen_false r _ _ hr2
        rw [List.contains_cons, hkeq, hrk] at h2
        simp at h2
    · rw [if_neg hkey]
      have hne : (pyLower p.title == k) = false := by
        rw [beq_eq_false_iff_ne]
        intro he
        exact hkey (beq_iff_eq.mpr he)
      have hpk : ¬(k = pyLower p.title) := by
        intro he
        subst he
        simp at hne
      by_cases hc : (pyLower p.title != "" && !(seen.contains (pyLower p.title))) = true
      · rw [if_pos hc] at hr
        rcases List.mem_cons.mp hr with rfl | hr2
        · exact absurd (beq_iff_eq.mpr hrk) hkey
        · exact ih _ (contains_cons_false k _ seen hpk hs) r hr2 hrk
      · rw [if_neg hc] at hr
        exact ih _ hs r hr hrk

/- ### Concrete instances used by witnesses and counterexamples -/

/-- An empty database. -/
def emptyStorage : Storage := ⟨[], [], [], []⟩

/-- A deadline feed knowing only ICML, deadline 2024-01-15 (claim C1's example). -/
def feedICML : String → Option String :=
  fun a => if a = "ICML" then some "2024-01-15" else none

/-- A database already holding an ICML 2024 row with an old deadline. -/
def dbC5 : Storage := ⟨[⟨"ICML", 2024, some "2024-01-01", none⟩], [], [], []⟩

/-- A feed now carrying a newer ICML deadline than the stored row. -/
def feedC5 : String → Option String :=
  fun a => if a = "ICML" then some "2024-06-06" else none

/-- A database whose ICML 2024 row already has `triggered_at` stamped. -/
def dbC6 : Storage := ⟨[⟨"ICML", 2024, some "2024-01-15", some "2024-01-22T00:00:01"⟩], [], [], []⟩

/-- Adapter outputs with two titles differing only in letter case. -/
def envC3 : String → List PaperRec :=
  fun src => if src = "openreview" then [⟨"Deep Learning", "", 0, "", none, none, none⟩]
    else if src = "arxiv" then [⟨"DEEP LEARNING", "", 0, "", none, none, none⟩]
    else []

/-- Adapter output whose only record has an empty title. -/
def envC3bad : String → List PaperRec :=
  fun src => if src = "openreview" then [⟨"", "", 0, "", none, none, none⟩] else []

/-- Twenty-five papers of conference `c` 2024, all with abstracts, ids 1..25. -/
def papers25 : List PaperRow :=
  (List.range 25).map (fun i => ⟨i + 1, "c", 2024, "t", some "a"⟩)

/-- A database holding exactly the 25 papers and no summaries. -/
def db25 : Storage := ⟨[], papers25, [], []⟩

/-- A database with one paper whose abstract is NULL. -/
def dbNull : Storage := ⟨[], [⟨1, "c", 2024, "t", none⟩], [], []⟩

/- ### Supporting lemmas for the claim theorems -/

theorem verify_repo_some (m : RepoMeta) (commit_api : Option String)
    (listing : Option (List String)) (paper_date : Option String) (readme : String)
    (la : Bool) (cs : List Bool) :
    verify_repo (some m) commit_api listing paper_date readme la cs
      = ⟨if la && readme != "" && cs.any id then "Placeholder"
          else if recencyExceeded paper_date (pyOrStr commit_api m.pushed_at) then "Placeholder"
          else if check_code_files listing && decide (0 < m.size) then "Verified" else "Placeholder",
         decide (0 < m.size), check_code_files listing, pyOrStr commit_api m.pushed_at⟩ := rfl

theorem gap_ne_empty (p lc : String) (g : Int) (hg : commitPaperDayGap p lc = some g) :
    ¬(p = "") ∧ ¬(lc = "") := by
  constructor
  · intro he
    subst he
    rcases hfc : fromisoformat (replaceZ lc) with _ | rdt <;>
      · unfold commitPaperDayGap at hg
        rw [show fromisoformat (replaceZ "") = none from by decide, hfc] at hg
        cases hg
  · intro he
    subst he
    rcases hfp : fromisoformat (replaceZ p) with _ | pdt <;>
      · unfold commitPaperDayGap at hg
        rw [show fromisoformat (replaceZ "") = none from by decide, hfp] at hg
        cases hg

theorem upsert_preserves_row (db : Storage) (n : String) (y : Int) (d : Option String)
    (n2 : String) (y2 : Int) (h : ∃ r ∈ db.conferences, r.name = n2 ∧ r.year = y2) :
    ∃ r ∈ (upsert_conference db n y d).conferences, r.name = n2 ∧ r.year = y2 := by
  unfold upsert_conference
  by_cases hc : db.conferences.any (fun r => r.name == n && r.year == y) = true
  · rw [if_pos hc]
    exact h
  · rw [if_neg hc]
    obtain ⟨r, hr, hp⟩ := h
    exact ⟨r, List.mem_append_left _ hr, hp⟩

theorem upsert_makes_row (db : Storage) (n : String) (y : Int) (d : Option String) :
    ∃ r ∈ (upsert_conference db n y d).conferences, r.name = n ∧ r.year = y := by
  unfold upsert_conference
  by_cases hc : db.conferences.any (fun r => r.name == n && r.year == y) = true
  · rw [if_pos hc]
    obtain ⟨r, hr, hp⟩ := List.any_eq_true.mp hc
    exact ⟨r, hr, beq_iff_eq.mp (bool_and_left hp), beq_iff_eq.mp (bool_and_right hp)⟩
  · rw [if_neg hc]
    exact ⟨⟨n, y, d, none⟩, List.mem_append_right _ (List.mem_singleton.mpr rfl), rfl, rfl⟩

theorem mark_preserves_row (db : Storage) (n : String) (y : Int) (nowIso : String)
    (n2 : String) (y2 : Int) (h : ∃ r ∈ db.conferences, r.name = n2 ∧ r.year = y2) :
    ∃ r ∈ (mark_conference_triggered db n y nowIso).conferences, r.name = n2 ∧ r.year = y2 := by
  obtain ⟨r, hr, hp1, hp2⟩ := h
  unfold mark_conference_triggered
  refine ⟨if r.name == n && r.year == y then { r with triggered_at := some nowIso } else r,
    List.mem_map_of_mem _ hr, ?_⟩
  by_cases hc : (r.name == n && r.year == y) = true
  · rw [if_pos hc]
    exact ⟨hp1, hp2⟩
  · rw [if_neg hc]
    exact ⟨hp1, hp2⟩

theorem select_preserves_row (deadlines : String → Option String) (lag_days nowDate : Nat)
    (nowIso : String) (n2 : String) (y2 : Int) :
    ∀ (confs : List ConfCfg) (db : Storage),
      (∃ r ∈ db.conferences, r.name = n2 ∧ r.year = y2) →
      ∃ r ∈ (select_triggered_conferences deadlines lag_days nowDate nowIso confs db).1.conferences,
        r.name = n2 ∧ r.year = y2 := by
  intro confs
  induction confs with
  | nil => intro db h; exact h
  | cons c rest ih =>
    intro db h
    simp only [select_triggered_conferences]
    split
    · exact ih _ (upsert_preserves_row _ _ _ _ _ _ h)
    · split
      · exact ih _ (upsert_preserves_row _ _ _ _ _ _ h)
      · split
        · exact ih _ (upsert_preserves_row _ _ _ _ _ _ h)
        · split
          · exact ih _ (mark_preserves_row _ _ _ _ _ _ (upsert_preserves_row _ _ _ _ _ _ h))
          · exact ih _ (upsert_preserves_row _ _ _ _ _ _ h)

theorem select_registers_row (deadlines : String → Option String) (lag_days nowDate : Nat)
    (nowIso : String) :
    ∀ (confs : List ConfCfg) (db : Storage) (conf : ConfCfg), conf ∈ confs →
      ∃ r ∈ (select_triggered_conferences deadlines lag_days nowDate nowIso confs db).1.conferences,
        r.name = conf.name ∧ r.year = conf.year := by
  intro confs
  induction confs with
  | nil => intro db conf h; cases h
  | cons c rest ih =>
    intro db conf h
    rcases List.mem_cons.mp h with rfl | h2
    · simp only [select_triggered_conferences]
      split
      · exact select_preserves_row _ _ _ _ _ _ rest _ (upsert_makes_row _ _ _ _)
      · split
        · exact select_preserves_row _ _ _ _ _ _ rest _ (upsert_makes_row _ _ _ _)
        · split
          · exact select_preserves_row _ _ _ _ _ _ rest _ (upsert_makes_row _ _ _ _)
          · split
            · exact select_preserves_row _ _ _ _ _ _ rest _
                (mark_preserves_row _ _ _ _ _ _ (upsert_makes_row _ _ _ _))
            · exact select_preserves_row _ _ _ _ _ _ rest _ (upsert_makes_row _ _ _ _)
    · simp only [select_triggered_conferences]
      split
      · exact ih _ _ h2
      · split
        · exact ih _ _ h2
        · split
          · exact ih _ _ h2
          · split
            · exact ih _ _ h2
            · exact ih _ _ h2

theorem filter_not_self {α : Type} (P : α → Bool) (l : List α) :
    (l.filter (fun a => !(P a))).filter P = [] := by
  induction l with
  | nil => rfl
  | cons a t ih => cases h : P a <;> simp [List.filter_cons, h, ih]

theorem filter_not_idem {α : Type} (P : α → Bool) (l : List α) :
    (l.filter (fun a => !(P a))).filter (fun a => !(P a)) = l.filter (fun a => !(P a)) := by
  induction l with
  | nil => rfl
  | cons a t ih => cases h : P a <;> simp [List.filter_cons, h, ih]

theorem filter_map_cluster (conference : String) (year : Int) (a : List (Nat × String)) :
    (a.map (fun x => (⟨conference, year, x.2, x.1⟩ : ClusterRow))).filter
      (fun r => r.conference == conference && r.year == year)
      = a.map (fun x => ⟨conference, year, x.2, x.1⟩) := by
  induction a with
  | nil => rfl
  | cons x t ih => simp [List.filter_cons, ih]

theorem filter_not_map_cluster (conference : String) (year : Int) (a : List (Nat × String)) :
    (a.map (fun x => (⟨conference, year, x.2, x.1⟩ : ClusterRow))).filter
      (fun r => !(r.conference == conference && r.year == year)) = [] := by
  induction a with
  | nil => rfl
  | cons x t ih =>
    simp only [List.map_cons, List.filter_cons, beq_self_eq_true, Bool.and_self,
      Bool.not_true, Bool.false_eq_true, if_false]
    exact ih

/- Sanity examples for the date model (claim C1's example dates). -/

example : daysFromCivil 2024 1 15 + 7 = daysFromCivil 2024 1 22 := by decide

example : fromisoformat "2024-01-15" = some ⟨daysFromCivil 2024 1 15, 0, none⟩ := by decide

example : fromisoformat "2023-05-01T12:30:00Z" = none := by decide

example : fromisoformat "2023-05-01T12:30:00+00:00"
    = some ⟨daysFromCivil 2023 5 1, 45000, some 0⟩ := by decide

example : fromisoformat "2024-02-30" = none := by decide

/- ### The claims -/

/-- Claim C1: a configured conference is selected (activated) by
`select_triggered_conferences` iff the deadline feed holds a deadline string
for its uppercased acronym, that string parses as ISO-8601 after the
`Z → +00:00` rewrite, and today's UTC date is at least the deadline date
plus `lag_days`; a conference with no known deadline is never selected. -/
theorem C1_activation_iff (deadlines : String → Option String) (lag_days nowDate : Nat)
    (nowIso : String) (confs : List ConfCfg) (db : Storage) (conf : ConfCfg)
    (hconf : conf ∈ confs) :
    conf ∈ (select_triggered_conferences deadlines lag_days nowDate nowIso confs db).2
    ↔ ∃ ds dt, deadlines (pyUpper conf.name) = some ds
        ∧ fromisoformat (replaceZ ds) = some dt
        ∧ dt.days + lag_days ≤ nowDate := by
  constructor
  · intro h
    exact select_triggered_sound deadlines lag_days nowDate nowIso conf confs db h
  · rintro ⟨ds, dt, h1, h2, h3⟩
    exact select_triggered_complete deadlines lag_days nowDate nowIso conf ds dt h1 h2 h3 confs db hconf

/-- Witness for C1: with deadline 2024-01-15 and lag 7, ICML 2024 is
selected on 2024-01-22 and not selected on 2024-01-21. -/
theorem C1_activation_witness :
    (⟨"ICML", 2024⟩ : ConfCfg) ∈ (select_triggered_conferences feedICML 7
      (daysFromCivil 2024 1 22) "2024-01-22T00:00:00" [⟨"ICML", 2024⟩] emptyStorage).2
    ∧ ¬((⟨"ICML", 2024⟩ : ConfCfg) ∈ (select_triggered_conferences feedICML 7
      (daysFromCivil 2024 1 21) "2024-01-21T00:00:00" [⟨"ICML", 2024⟩] emptyStorage).2) := by
  constructor
  · exact (C1_activation_iff feedICML 7 (daysFromCivil 2024 1 22) "2024-01-22T00:00:00"
      [⟨"ICML", 2024⟩] emptyStorage ⟨"ICML", 2024⟩ (List.mem_singleton.mpr rfl)).mpr
      ⟨"2024-01-15", ⟨daysFromCivil 2024 1 15, 0, none⟩, by decide, by decide, by decide⟩
  · intro h
    obtain ⟨ds, dt, h1, h2, h3⟩ := (C1_activation_iff feedICML 7 (daysFromCivil 2024 1 21)
      "2024-01-21T00:00:00" [⟨"ICML", 2024⟩] emptyStorage ⟨"ICML", 2024⟩
      (List.mem_singleton.mpr rfl)).mp h
    rw [show feedICML (pyUpper "ICML") = some "2024-01-15" from by decide] at h1
    injection h1 with h1e
    subst h1e
    rw [show fromisoformat (replaceZ "2024-01-15")
      = some ⟨daysFromCivil 2024 1 15, 0, none⟩ from by decide] at h2
    injection h2 with h2e
    subst h2e
    exact absurd h3 (by decide)

/-- Claim C2: `verify_repo` returns status `None` (with no readme, no code,
no last commit) when metadata is unreachable; `Placeholder` when the root
listing has no recognized source extension; `Verified` when a recognized
extension is present, the size proxy is positive, and the last commit is
within 180 whole days (absolute value of the Python day difference) of the
given paper date; and `Placeholder` regardless of the earlier checks when
that absolute day difference exceeds 180. -/
theorem C2_verify_statuses :
    (∀ (commit_api : Option String) (listing : Option (List String))
      (paper_date : Option String) (readme : String) (la : Bool) (cs : List Bool),
      verify_repo none commit_api listing paper_date readme la cs
        = ⟨"None", false, false, none⟩)
    ∧ (∀ (m : RepoMeta) (commit_api : Option String) (listing : Option (List String))
      (paper_date : Option String) (readme : String) (cs : List Bool),
      check_code_files listing = false →
      (verify_repo (some m) commit_api listing paper_date readme false cs).status = "Placeholder")
    ∧ (∀ (m : RepoMeta) (commit_api : Option String) (listing : Option (List String))
      (p lc : String) (g : Int) (readme : String) (cs : List Bool),
      check_code_files listing = true → 0 < m.size →
      pyOrStr commit_api m.pushed_at = some lc → commitPaperDayGap p lc = some g →
      g.natAbs ≤ 180 →
      (verify_repo (some m) commit_api listing (some p) readme false cs).status = "Verified")
    ∧ (∀ (m : RepoMeta) (commit_api : Option String) (listing : Option (List String))
      (p lc : String) (g : Int) (readme : String) (cs : List Bool),
      pyOrStr commit_api m.pushed_at = some lc → commitPaperDayGap p lc = some g →
      180 < g.natAbs →
      (verify_repo (some m) commit_api listing (some p) readme false cs).status = "Placeholder") := by
  refine ⟨?_, ?_, ?_, ?_⟩
  · intro commit_api listing paper_date readme la cs
    rfl
  · intro m commit_api listing paper_date readme cs hcc
    cases hrec : recencyExceeded paper_date (pyOrStr commit_api m.pushed_at) <;>
      simp [verify_repo_some, hcc, hrec]
  · intro m commit_api listing p lc g readme cs hcc hsize hlc hg hle
    have hrec : recencyExceeded (some p) (pyOrStr commit_api m.pushed_at) = false := by
      rw [hlc]
      by_cases hpe : p = ""
      · exact absurd hpe (gap_ne_empty p lc g hg).1
      · by_cases hlce : lc = ""
        · exact absurd hlce (gap_ne_empty p lc g hg).2
        · simp only [recencyExceeded]
          rw [if_neg (by simp [hpe, hlce]), hg]
          show (if 180 < g.natAbs then true else false) = false
          rw [if_neg (by omega)]
    simp [verify_repo_some, hrec, hcc, decide_eq_true hsize]
  · intro m commit_api listing p lc g readme cs hlc hg hgt
    obtain ⟨hpe, hlce⟩ := gap_ne_empty p lc g hg
    have hrec : recencyExceeded (some p) (pyOrStr commit_api m.pushed_at) = true := by
      rw [hlc]
      simp only [recencyExceeded]
      rw [if_neg (by simp [hpe, hlce]), hg]
      show (if 180 < g.natAbs then true else false) = true
      rw [if_pos hgt]
    simp [verify_repo_some, hrec]

/-- Witness for C2: one concrete repository per case (unreachable; no code
extension; code + size + 1-day-old commit; code + size + 366-day-old commit). -/
theorem C2_verify_witness :
    verify_repo none none none none "" false [] = ⟨"None", false, false, none⟩
    ∧ (verify_repo (some ⟨5, none⟩) none (some ["readme.md"]) none "" false []).status = "Placeholder"
    ∧ (verify_repo (some ⟨5, none⟩) (some "2024-01-02T00:00:00Z") (some ["main.py"])
        (some "2024-01-01T00:00:00Z") "" false []).status = "Verified"
    ∧ (verify_repo (some ⟨5, none⟩) (some "2025-01-01T00:00:00Z") (some ["main.py"])
        (some "2024-01-01T00:00:00Z") "" false []).status = "Placeholder" := by
  refine ⟨C2_verify_statuses.1 none none none "" false [],
    C2_verify_statuses.2.1 ⟨5, none⟩ none (some ["readme.md"]) none "" [] (by decide),
    C2_verify_statuses.2.2.1 ⟨5, none⟩ (some "2024-01-02T00:00:00Z") (some ["main.py"])
      "2024-01-01T00:00:00Z" "2024-01-02T00:00:00Z" 1 "" []
      (by decide) (by decide) (by decide) (by decide) (by decide),
    C2_verify_statuses.2.2.2 ⟨5, none⟩ (some "2025-01-01T00:00:00Z") (some ["main.py"])
      "2024-01-01T00:00:00Z" "2025-01-01T00:00:00Z" 366 "" []
      (by decide) (by decide) (by decide)⟩

/-- Counterexample for C3 as frozen: an adapter record whose title is empty
is the first (and only) occurrence of its lowercased title in the stream,
yet `collect_papers` drops it, so "the first occurrence in priority order is
kept" fails. -/
theorem C3_empty_title_counterexample :
    collect_papers ["openreview"] envC3bad "C" 2024 = []
    ∧ collectStream ["openreview"] envC3bad "C" 2024 ≠ [] := by
  constructor
  · rfl
  · intro h
    cases h

/-- Claim C3 (amended): `collect_papers` equals a single first-occurrence
deduplication pass by lowercased title over the priority-ordered normalized
stream; records whose lowercased title is empty are dropped entirely; for
every non-empty key present in the stream, exactly one record with that key
is collected, and it is the first record of the stream bearing that key —
so two records whose titles differ only in letter case yield exactly one
collected record. -/
theorem C3_dedup_amended (priority : List String) (env : String → List PaperRec)
    (conference : String) (year : Int) :
    collect_papers priority env conference year
      = dedupByTitle (collectStream priority env conference year) []
    ∧ (∀ r ∈ collect_papers priority env conference year, ¬(pyLower r.title = ""))
    ∧ (∀ (k : String) (r0 : PaperRec), ¬(k = "") →
        r0 ∈ collectStream priority env conference year → pyLower r0.title = k →
        (collect_papers priority env conference year).countP (fun p => pyLower p.title == k) = 1
        ∧ ∀ r ∈ collect_papers priority env conference year, pyLower r.title = k →
            firstWithKey k (collectStream priority env conference year) = some r) := by
  have hcollect : collect_papers priority env conference year
      = dedupByTitle (collectStream priority env conference year) [] := by
    unfold collect_papers
    rw [collectSources_spec]
    simp
  refine ⟨hcollect, ?_, ?_⟩
  · intro r hr
    rw [hcollect] at hr
    exact dedup_mem_key_ne r _ _ hr
  · intro k r0 hk hr0 hr0k
    constructor
    · rw [hcollect, dedup_count_one k hk _ [] rfl]
      have hany : (collectStream priority env conference year).any
          (fun p => pyLower p.title == k) = true :=
        List.any_eq_true.mpr ⟨r0, hr0, beq_iff_eq.mpr hr0k⟩
      rw [hany]
      rfl
    · intro r hr hrk
      rw [hcollect] at hr
      exact dedup_find_first k hk _ [] rfl r hr hrk

/-- Witness for C3 (amended): the two case-variant titles "Deep Learning"
(OpenReview) and "DEEP LEARNING" (arXiv) yield exactly one collected record. -/
theorem C3_dedup_witness :
    (collect_papers ["openreview", "official", "arxiv"] envC3 "C" 2024).countP
      (fun p => pyLower p.title == "deep learning") = 1 := by
  have h := (C3_dedup_amended ["openreview", "official", "arxiv"] envC3 "C" 2024).2.2
    "deep learning" (normalizeRecord ⟨"Deep Learning", "", 0, "", none, none, none⟩ "C" 2024 "openreview")
    (by decide) (by decide) (by decide)
  exact h.1

/-- Claim C4: with a positive batch size `N`, distinct paper ids and a
well-formed collaborator (modelled by `batch_summarize_ideal`), the batch
summarization loop of `process_conference` terminates with exactly
`ceil(backlog / N)` collaborator calls (`(backlog + N - 1) / N`), leaves no
eligible paper without a summary, and does not change the papers table. -/
theorem C4_summarize_loop (en zh : Nat → String) (conf : String) (year : Int)
    (N : Nat) (db : Storage) (hN : 0 < N)
    (hnd : (db.papers.map (fun p => p.id)).Nodup) :
    (summarizeLoop en zh conf year N db).2
      = ((papersWithoutSummary db conf year).length + N - 1) / N
    ∧ papersWithoutSummary (summarizeLoop en zh conf year N db).1 conf year = []
    ∧ (summarizeLoop en zh conf year N db).1.papers = db.papers :=
  summarizeLoop_spec en zh conf year N hN _ db rfl hnd

/-- Witness for C4: a backlog of 25 papers with batch size 10 takes exactly
3 collaborator calls and leaves no paper unsummarized. -/
theorem C4_summarize_witness :
    (summarizeLoop (fun _ => "tl") (fun _ => "zh") "c" 2024 10 db25).2 = 3
    ∧ papersWithoutSummary (summarizeLoop (fun _ => "tl") (fun _ => "zh") "c" 2024 10 db25).1
        "c" 2024 = [] := by
  have h := C4_summarize_loop (fun _ => "tl") (fun _ => "zh") "c" 2024 10 db25
    (by decide) (by decide)
  exact ⟨h.1.trans (by decide), h.2.1⟩

/-- Counterexample for C5 as frozen: a run whose feed supplies deadline
2024-06-06 for an ICML 2024 row already stored with deadline 2024-01-01
leaves the stored deadline at 2024-01-01 (`INSERT OR IGNORE` does not
refresh an existing row). -/
theorem C5_deadline_counterexample :
    ((select_triggered_conferences feedC5 7 (daysFromCivil 2024 9 1) "2024-09-01T00:00:00"
        [⟨"ICML", 2024⟩] dbC5).1.conferences.map (fun r => r.deadline))
      = [some "2024-01-01"]
    ∧ feedC5 (pyUpper "ICML") = some "2024-06-06"
    ∧ ¬(((select_triggered_conferences feedC5 7 (daysFromCivil 2024 9 1) "2024-09-01T00:00:00"
        [⟨"ICML", 2024⟩] dbC5).1.conferences.map (fun r => r.deadline))
      = [some "2024-06-06"]) := by
  refine ⟨by decide, by decide, by decide⟩

/-- Claim C5 (amended): every configured conference is upserted into storage
on every run regardless of activation, but the upsert is insert-if-absent:
an existing `(name, year)` row is left entirely unchanged (its deadline is
not refreshed), and only a missing row is inserted with the supplied
deadline. -/
theorem C5_upsert_registers (db : Storage) (name : String) (year : Int)
    (deadline : Option String) (deadlines : String → Option String)
    (lag_days nowDate : Nat) (nowIso : String) (confs : List ConfCfg) :
    (db.conferences.any (fun r => r.name == name && r.year == year) = true →
      upsert_conference db name year deadline = db)
    ∧ (db.conferences.any (fun r => r.name == name && r.year == year) = false →
      (upsert_conference db name year deadline).conferences
        = db.conferences ++ [⟨name, year, deadline, none⟩])
    ∧ (∀ conf ∈ confs,
        ∃ r ∈ (select_triggered_conferences deadlines lag_days nowDate nowIso confs db).1.conferences,
          r.name = conf.name ∧ r.year = conf.year) := by
  refine ⟨?_, ?_, ?_⟩
  · intro h
    unfold upsert_conference
    rw [if_pos h]
  · intro h
    unfold upsert_conference
    rw [if_neg (by rw [h]; exact Bool.false_ne_true)]
  · intro conf hc
    exact select_registers_row deadlines lag_days nowDate nowIso confs db conf hc

/-- Witness for C5 (amended): upserting the already-present ICML 2024 row
leaves the database unchanged, and the run registers a row for the
configured conference. -/
theorem C5_upsert_witness :
    upsert_conference dbC5 "ICML" 2024 (some "2024-06-06") = dbC5
    ∧ ∃ r ∈ (select_triggered_conferences feedC5 7 (daysFromCivil 2024 9 1)
        "2024-09-01T00:00:00" [⟨"ICML", 2024⟩] dbC5).1.conferences,
        r.name = ("ICML" : String) ∧ r.year = (2024 : Int) := by
  have h := C5_upsert_registers dbC5 "ICML" 2024 (some "2024-06-06") feedC5 7
    (daysFromCivil 2024 9 1) "2024-09-01T00:00:00" [⟨"ICML", 2024⟩]
  exact ⟨h.1 (by decide), h.2.2 ⟨"ICML", 2024⟩ (List.mem_singleton.mpr rfl)⟩

/-- Counterexample for C6 as frozen: re-running the trigger engine over a
conference whose `triggered_at` is already stamped replaces the stored
timestamp with the new run's timestamp — the second run is not a no-op on
`triggered_at`. -/
theorem C6_retrigger_counterexample :
    ((select_triggered_conferences feedICML 7 (daysFromCivil 2024 1 23) "2024-01-23T00:00:00"
        [⟨"ICML", 2024⟩] dbC6).1.conferences.map (fun r => r.triggered_at))
      = [some "2024-01-23T00:00:00"]
    ∧ dbC6.conferences.map (fun r => r.triggered_at) = [some "2024-01-22T00:00:01"] := by
  refine ⟨by decide, by decide⟩

/-- Claim C6 (amended): `mark_conference_triggered` unconditionally
overwrites: after marking `(name, year)`, every stored row with that key
has `triggered_at` equal to the marking run's timestamp, regardless of any
previously stored value — re-triggering re-stamps rather than being a
no-op. -/
theorem C6_retrigger_overwrites (db : Storage) (name : String) (year : Int)
    (nowIso : String) (r : ConferenceRow)
    (hr : r ∈ (mark_conference_triggered db name year nowIso).conferences)
    (hname : r.name = name) (hyear : r.year = year) :
    r.triggered_at = some nowIso := by
  unfold mark_conference_triggered at hr
  obtain ⟨r0, hr0, hmap⟩ := List.mem_map.mp hr
  by_cases hc : (r0.name == name && r0.year == year) = true
  · rw [if_pos hc] at hmap
    rw [← hmap]
  · rw [if_neg hc] at hmap
    subst hmap
    exact absurd (by rw [hname, hyear]; simp) hc

/-- Witness for C6 (amended): marking the already-stamped ICML 2024 row
yields the new timestamp. -/
theorem C6_retrigger_witness :
    (⟨"ICML", 2024, some "2024-01-15", some "NEW"⟩ : ConferenceRow).triggered_at
      = some "NEW" :=
  C6_retrigger_overwrites dbC6 "ICML" 2024 "NEW"
    ⟨"ICML", 2024, some "2024-01-15", some "NEW"⟩ (by decide) rfl rfl

/-- Claim C7: `save_clusters` fully replaces a `(conference, year)` scope:
after a run, the stored rows of that scope are exactly that run's
assignments; rows of other scopes are untouched; and after two runs only
the second run's assignments remain. -/
theorem C7_clusters_fully_replaced (db : Storage) (conference : String) (year : Int)
    (a1 a2 : List (Nat × String)) :
    (save_clusters db conference year a1).clusters.filter
        (fun r => r.conference == conference && r.year == year)
      = a1.map (fun x => ⟨conference, year, x.2, x.1⟩)
    ∧ (save_clusters db conference year a1).clusters.filter
        (fun r => !(r.conference == conference && r.year == year))
      = db.clusters.filter (fun r => !(r.conference == conference && r.year == year))
    ∧ (save_clusters (save_clusters db conference year a1) conference year a2).clusters.filter
        (fun r => r.conference == conference && r.year == year)
      = a2.map (fun x => ⟨conference, year, x.2, x.1⟩) := by
  refine ⟨?_, ?_, ?_⟩
  · unfold save_clusters
    rw [List.filter_append, filter_not_self, filter_map_cluster, List.nil_append]
  · unfold save_clusters
    rw [List.filter_append, filter_not_idem, filter_not_map_cluster, List.append_nil]
  · unfold save_clusters
    rw [List.filter_append, filter_not_self, filter_map_cluster, List.nil_append]

/-- Claim C8: the optional collaborator placeholder judgment in
`verify_repo` never upgrades a status: the result is either `Placeholder`
or exactly the status computed without the collaborator step; an
affirmative judgment forces `Placeholder` even over `Verified`; and no
judgment can turn a non-`Verified` pre-LLM status into `Verified`. -/
theorem C8_llm_never_upgrades (meta : Option RepoMeta) (commit_api : Option String)
    (listing : Option (List String)) (paper_date : Option String) (readme : String)
    (la : Bool) (cs : List Bool) :
    ((verify_repo meta commit_api listing paper_date readme la cs).status = "Placeholder"
      ∨ (verify_repo meta commit_api listing paper_date readme la cs).status
        = (verify_repo meta commit_api listing paper_date readme false cs).status)
    ∧ (∀ m : RepoMeta, meta = some m → ¬(readme = "") → cs.any id = true →
        (verify_repo meta commit_api listing paper_date readme true cs).status = "Placeholder")
    ∧ ((verify_repo meta commit_api listing paper_date readme false cs).status ≠ "Verified" →
        (verify_repo meta commit_api listing paper_date readme la cs).status ≠ "Verified") := by
  cases meta with
  | none =>
    refine ⟨Or.inr rfl, ?_, ?_⟩
    · intro m hm
      cases hm
    · intro h hcontra
      exact h hcontra
  | some m =>
    refine ⟨?_, ?_, ?_⟩
    · by_cases hb : (la && readme != "" && cs.any id) = true
      · left
        rw [verify_repo_some, if_pos hb]
      · right
        rw [verify_repo_some, verify_repo_some, if_neg hb,
          if_neg (show ¬((false && readme != "" && cs.any id) = true) by simp)]
    · intro m2 hm2 hr hany
      have hbne : (readme != "") = true := bne_iff_ne.mpr hr
      simp [verify_repo_some, hbne, hany]
    · intro hne hcontra
      apply hne
      by_cases hb : (la && readme != "" && cs.any id) = true
      · rw [verify_repo_some, if_pos hb] at hcontra
        have hps : ("Placeholder" : String) = "Verified" := hcontra
        exact absurd hps (by decide)
      · rw [verify_repo_some, if_neg hb] at hcontra
        rw [verify_repo_some,
          if_neg (show ¬((false && readme != "" && cs.any id) = true) by simp)]
        exact hcontra

/-- Witness for C8: an affirmative judgment downgrades a populated
repository to `Placeholder`, and a repository that was `Placeholder` before
the collaborator step is still not `Verified` after it. -/
theorem C8_llm_witness :
    (verify_repo (some ⟨5, none⟩) none (some ["main.py"]) none "README" true [true]).status
      = "Placeholder"
    ∧ (verify_repo (some ⟨5, none⟩) none (some ["x.md"]) none "README" true [true]).status
      ≠ "Verified" := by
  refine ⟨(C8_llm_never_upgrades (some ⟨5, none⟩) none (some ["main.py"]) none "README"
      true [true]).2.1 ⟨5, none⟩ rfl (by decide) (by decide),
    (C8_llm_never_upgrades (some ⟨5, none⟩) none (some ["x.md"]) none "README"
      true [true]).2.2 (by decide)⟩

/-- Claim C9: a JSON-mode collaborator call whose first attempt fails to
parse is retried exactly once more (two attempts in total), and if the
second attempt also fails the call yields `none` — the model is a total
function, so no exception reaches the caller. -/
theorem C9_chat_json_retry {α : Type} (attempt1 attempt2 : Option α)
    (h1 : attempt1 = none) :
    chat_json attempt1 attempt2 = (attempt2, 2)
    ∧ (attempt2 = none → (chat_json attempt1 attempt2).1 = none) := by
  subst h1
  refine ⟨rfl, ?_⟩
  intro h2
  rw [show (chat_json (none : Option α) attempt2).1 = attempt2 from rfl, h2]

/-- Witness for C9: two parse failures yield `none` after exactly two
attempts. -/
theorem C9_chat_json_witness :
    chat_json (none : Option Nat) (none : Option Nat) = (none, 2)
    ∧ ((none : Option Nat) = none → (chat_json (none : Option Nat) (none : Option Nat)).1 = none) :=
  C9_chat_json_retry (none : Option Nat) none rfl

/-- Claim C10: a stored paper whose abstract is NULL is excluded by the
WHERE clause of `fetch_papers_without_summary` for every limit, so it is
never submitted to the summarizer; with distinct paper ids its id never
appears in a fetched batch. -/
theorem C10_null_abstract_never_selected (db : Storage) (conference : String) (year : Int)
    (p : PaperRow) (hp : p ∈ db.papers) (habs : p.abstract = none) :
    (∀ limit : Nat, p ∉ (papersWithoutSummary db conference year).take limit)
    ∧ ((db.papers.map (fun q => q.id)).Nodup →
        ∀ limit : Nat,
          p.id ∉ (fetch_papers_without_summary db conference year limit).map (fun t => t.1)) := by
  have hnotE : p ∉ papersWithoutSummary db conference year := by
    intro hmem
    have h2 := (List.mem_filter.mp hmem).2
    rw [habs] at h2
    simp at h2
  constructor
  · intro limit hmem
    exact hnotE (List.mem_of_mem_take hmem)
  · intro hnd limit hmem
    unfold fetch_papers_without_summary at hmem
    obtain ⟨t, ht, htid⟩ := List.mem_map.mp hmem
    obtain ⟨q, hq, hqt⟩ := List.mem_map.mp ht
    have hqE : q ∈ papersWithoutSummary db conference year := List.mem_of_mem_take hq
    have hqp : q ∈ db.papers := (List.mem_filter.mp hqE).1
    have hid : q.id = p.id := by
      rw [← htid, ← hqt]
    have hqeq : q = p := List.inj_on_of_nodup_map hnd hqp hp hid
    subst hqeq
    exact hnotE hqE

/-- Witness for C10: the NULL-abstract paper of `dbNull` is never fetched. -/
theorem C10_null_abstract_witness :
    (⟨1, "c", 2024, "t", none⟩ : PaperRow) ∉ (papersWithoutSummary dbNull "c" 2024).take 5
    ∧ (1 : Nat) ∉ (fetch_papers_without_summary dbNull "c" 2024 5).map (fun t => t.1) := by
  have h := C10_null_abstract_never_selected dbNull "c" 2024 ⟨1, "c", 2024, "t", none⟩
    (by decide) rfl
  exact ⟨h.1 5, h.2 (by decide) 5⟩
